import Mathlib

/-!
Verification of the serialize → cache → deserialize/validate core of
`zengine/forms/json_form.py` (class `JsonForm`, helper `FormCache`).

The embedding follows the source file `src/zengine/forms/json_form.py`.
Python values are modelled by `PVal`; Python dicts by insertion-ordered
association lists (`AList`) with unique-key well-formedness assumed where
the source relies on it.  The repository targets Python 2 (its tests index
exception values), so `filter` returns a list (truthy iff non-empty) and
`"%s" % lst` formats the list; both are modelled accordingly: the
`FormValidationError` payload is the list of non-matching keys.

Parts of the repository that the source file calls but that are not part
of the given sources (`ModelForm._serialize`, `ModelForm._deserialize`,
`ModelForm.get_choices`, `zengine.lib.cache.Cache`) are modelled from the
specification; each such definition carries a doc comment saying so.
-/

namespace Zengine

/-- A Python value, as far as the form core needs them: `None`, booleans,
integers and strings. -/
inductive PVal where
  | none
  | bool (b : Bool)
  | int (n : Int)
  | str (s : String)
  deriving DecidableEq, Repr

/-- Python truthiness on `PVal`: `None`, `False`, `0` and `""` are falsy. -/
def PVal.truthy : PVal → Bool
  | .none => false
  | .bool b => b
  | .int n => n != 0
  | .str s => s != ""

/-- Python's `a or b`: `a` when `a` is truthy, else `b`. -/
def pyOr (a b : PVal) : PVal := if a.truthy then a else b

/-- A Python dict of `PVal`s, modelled as an insertion-ordered association
list (keys are unique in all well-formed states the source builds). -/
abbrev AList := List (String × PVal)

/-- `d.get(k)` / `d[k]` lookup. -/
def alookup (l : AList) (k : String) : Option PVal :=
  match l with
  | [] => Option.none
  | (k', v) :: rest => if k' = k then Option.some v else alookup rest k

/-- `k in d`. -/
def ahas (l : AList) (k : String) : Bool := (alookup l k).isSome

/-- `d[k] = v`: update the key in place when present, append otherwise. -/
def aset (l : AList) (k : String) (v : PVal) : AList :=
  match l with
  | [] => [(k, v)]
  | (k', v') :: rest => if k' = k then (k, v) :: rest else (k', v') :: aset rest k v

/-- `d.pop(k)` (the removal part). -/
def aremove (l : AList) (k : String) : AList :=
  match l with
  | [] => []
  | (k', v') :: rest => if k' = k then rest else (k', v') :: aremove rest k

/-- `d.update(other)`. -/
def aupdate (l other : AList) : AList :=
  other.foldl (fun acc kv => aset acc kv.1 kv.2) l

/-- `d.keys()` (as the Python 2 list of keys). -/
def akeys (l : AList) : List String := l.map Prod.fst

theorem alookup_aset_self (l : AList) (k : String) (v : PVal) :
    alookup (aset l k v) k = Option.some v := by
  induction l with
  | nil => simp [aset, alookup]
  | cons hd tl ih =>
    by_cases h : hd.1 = k
    · simp [aset, h, alookup]
    · simp [aset, h, alookup, ih]

theorem alookup_aset_other (l : AList) (k k' : String) (v : PVal) (hne : k ≠ k') :
    alookup (aset l k v) k' = alookup l k' := by
  induction l with
  | nil => simp [aset, alookup, hne]
  | cons hd tl ih =>
    by_cases h : hd.1 = k
    · simp [aset, h, alookup, hne, Ne.symm hne]
    · simp only [aset, h, if_false, alookup]
      by_cases h2 : hd.1 = k'
      · simp [h2]
      · simp [h2, ih]

theorem akeys_aset (l : AList) (k : String) (v : PVal) :
    akeys (aset l k v) = if k ∈ akeys l then akeys l else akeys l ++ [k] := by
  induction l with
  | nil => simp [aset, akeys]
  | cons hd tl ih =>
    by_cases h : hd.1 = k
    · simp [aset, h, akeys]
    · simp only [aset, h, if_false, akeys, List.map_cons, List.mem_cons]
      rw [akeys] at ih
      by_cases h2 : k ∈ tl.map Prod.fst
      · simp [h2, ih, akeys, Ne.symm h]
      · simp [h2, ih, akeys, Ne.symm h]

/-! ## Field descriptors and form instances -/

/-- A pyoko/zengine field descriptor (`pyoko.fields.BaseField` /
`zengine.forms.fields`), as `JsonForm` consumes it: the `name` assigned by
`process_form`, a display `title`, a type tag `ftype` (`"string"`,
`"int"`, `"button"`, … — never one of the node tags `"Node"`,
`"ListNode"`, `"model"`, which belong to nested nodes, not plain fields),
a requiredness flag, the `_order` sort key, a `default` value, the
remaining constructor `kwargs` (rendering hints such as `hidden` or
`widget`), the optional `choices` pairs, and whether the descriptor is a
`Button` (`isButton`), which `process_form` also records in
`non_data_fields`. -/
structure BaseField where
  name : String
  title : String
  ftype : String
  required : Bool
  order : Int
  default : PVal
  kwargs : AList
  choices : List (PVal × String)
  isButton : Bool
  deriving DecidableEq, Repr

/-- `sorted(self._fields.items(), key=lambda x: x[1]._order)` — Python's
`sorted` is stable; `List.insertionSort` with `≤` on the order key is the
matching stable sort. -/
def sortByOrder (fs : List BaseField) : List BaseField :=
  fs.insertionSort (fun a b => a.order ≤ b.order)

/-- `JsonForm.process_form` (src lines 116–130): collect the field
descriptors and give them their attribute names (names are pre-assigned in
this embedding), record `Button` names as `non_data_fields`, and re-sort
the fields by their `_order` key.  The enumeration order of the class
`__dict__` is taken as the order of `declared`. -/
def process_form (declared : List BaseField) : List BaseField × List String :=
  (sortByOrder declared, (declared.filter (fun f => f.isButton)).map (fun f => f.name))

/-- A bound `JsonForm` instance after `__init__`/`process_form`:
the field registry (`_fields`, in enumeration order — `_ordered_fields`
is recovered by `sortByOrder`), the current bound values
(`_field_values`), the action-only names (`non_data_fields`),
`Meta.title` / `Meta.help_text`, the whitelisted `inline_edit` root
option, and the `_model` identity data used when the bound model
`is_in_db()` (its key, class name and unicode label). -/
structure JsonForm where
  fields : List BaseField
  field_values : AList
  non_data_fields : List String
  title : String
  help_text : String
  inline_edit : Option PVal
  in_db : Bool
  model_key : String
  model_type : String
  model_unicode : String
  deriving DecidableEq, Repr

/-- `JsonForm.set_data` (src lines 139–152): for every registered field
name, set the field's value to `data.get(name)` (`None` when absent). -/
def JsonForm.set_data (f : JsonForm) (data : AList) : JsonForm :=
  { f with field_values :=
      f.fields.map (fun fd => (fd.name, (alookup data fd.name).getD PVal.none)) }

/-! ## The serialized item stream (`ModelForm._serialize`) -/

/-- One item yielded by `ModelForm._serialize`, as `JsonForm.serialize`
reads it: the dict with keys `name`, `type`, `title`, `value`, `default`,
`required`, `kwargs`, `choices`. -/
structure SerItem where
  name : String
  ftype : String
  title : String
  value : PVal
  default : PVal
  required : Bool
  kwargs : AList
  choices : List (PVal × String)
  deriving DecidableEq, Repr

/-- Modelled from the spec: `ModelForm._serialize` is not among the given
sources; per §4.3 it yields one item per field in Field-Registry order
(the `_order`-sorted registry), carrying the field's current bound value
and its default, together with the descriptor's type tag, title,
requiredness, kwargs and choices. -/
def JsonForm.mkSerItem (f : JsonForm) (fd : BaseField) : SerItem :=
  { name := fd.name
    ftype := fd.ftype
    title := fd.title
    value := (alookup f.field_values fd.name).getD PVal.none
    default := fd.default
    required := fd.required
    kwargs := fd.kwargs
    choices := fd.choices }

/-- Modelled from the spec: the item stream of `ModelForm._serialize`
(see `JsonForm.mkSerItem`). -/
def JsonForm.serItems (f : JsonForm) : List SerItem :=
  (sortByOrder f.fields).map f.mkSerItem

/-! ## Serialized output -/

/-- One entry of the UI `titleMap`: the `{"value": v, "label": l}` dict. -/
structure TMEntry where
  value : PVal
  label : String
  deriving DecidableEq, Repr

/-- Modelled from the spec: `ModelForm.get_choices` is not among the given
sources; per §6 it turns the `(value, label)` choice pairs into the
ordered `titleMap` list of `{value, label}` entries. -/
def get_choices (cs : List (PVal × String)) : List TMEntry :=
  cs.map (fun p => { value := p.1, label := p.2 })

/-- One entry of the returned `form` render list: the seeded literal help
entry, a bare field-name reference, or the inline select-widget dict
`{key, type: "select", title, titleMap}` pushed by `_handle_choices`. -/
inductive FormEntry where
  | help (helpvalue : String)
  | nameRef (name : String)
  | selectEntry (key : String) (title : String) (titleMap : List TMEntry)
  deriving DecidableEq, Repr

/-- The `{schema, form, model}` result dict of `JsonForm.serialize`
(src lines 208–222), with the whitelisted `inline_edit` root extension.
`schema.type` is the constant `"object"`; `properties` maps each field
name to its `item_props` dict. -/
structure SerializedForm where
  schema_title : String
  properties : List (String × AList)
  required : List String
  form : List FormEntry
  model : AList
  inline_edit : Option PVal
  deriving DecidableEq, Repr

/-- The mutable pieces of `result` that the per-item loop of
`JsonForm.serialize` updates. -/
structure SerState where
  properties : List (String × AList)
  required : List String
  form : List FormEntry
  model : AList
  deriving Repr

/-- `properties[name] = item_props` (dict assignment on `schema.properties`). -/
def propSet (l : List (String × AList)) (k : String) (v : AList) :
    List (String × AList) :=
  match l with
  | [] => [(k, v)]
  | (k', v') :: rest => if k' = k then (k, v) :: rest else (k', v') :: propSet rest k v

/-- `schema.properties[name]` lookup. -/
def propGet (l : List (String × AList)) (k : String) : Option AList :=
  match l with
  | [] => Option.none
  | (k', v) :: rest => if k' = k then Option.some v else propGet rest k

/-- `JsonForm._handle_choices` (src lines 307–314): set
`item_props['type'] = 'select'` and push the select-widget dict onto
`form`. -/
def handle_choices (itm : SerItem) (item_props : AList) (form : List FormEntry) :
    AList × List FormEntry :=
  (aset item_props "type" (PVal.str "select"),
   form ++ [FormEntry.selectEntry itm.name itm.title (get_choices itm.choices)])

/-- Src lines 235–236: when the item's `value` is falsy and its kwargs
carry a `value`, the kwargs `value` is popped into the item's value. -/
def effValue (itm : SerItem) : PVal :=
  if ¬ itm.value.truthy ∧ (ahas itm.kwargs "value") = true then
    (alookup itm.kwargs "value").getD PVal.none
  else itm.value

/-- The item's kwargs after the `value` pop of src lines 235–236 and the
`widget` pop of src lines 238–239. -/
def effKwargs (itm : SerItem) : AList :=
  let kwargs :=
    if ¬ itm.value.truthy ∧ (ahas itm.kwargs "value") = true then
      aremove itm.kwargs "value"
    else itm.kwargs
  if (ahas kwargs "widget") = true then aremove kwargs "widget" else kwargs

/-- Src line 241: `result["model"][itm['name']] = itm['value'] or
itm['default']` — the value written into `model` for this item. -/
def modelVal (itm : SerItem) : PVal := pyOr (effValue itm) itm.default

/-- Src lines 233 and 238–239: `item_props = {'type': …, 'title': …}`
plus the popped `widget`, when one exists. -/
def baseProps (itm : SerItem) : AList :=
  let item_props : AList :=
    [("type", PVal.str itm.ftype), ("title", PVal.str itm.title)]
  match alookup
      (if ¬ itm.value.truthy ∧ (ahas itm.kwargs "value") = true then
        aremove itm.kwargs "value"
      else itm.kwargs) "widget" with
  | Option.some w => aset item_props "widget" w
  | Option.none => item_props

/-- Src line 246: the item's type tag is none of the node tags. -/
def nonNode (t : String) : Prop := t ∉ ["ListNode", "model", "Node"]

instance (t : String) : Decidable (nonNode t) := by
  unfold nonNode; infer_instance

/-- Src lines 246–250: the `continue` condition — a non-node item whose
(post-pop) kwargs carry `hidden` is only written into `model`, bypassing
`form` and `schema.properties`. -/
def hiddenSkip (itm : SerItem) : Prop :=
  nonNode itm.ftype ∧ (ahas (effKwargs itm) "hidden") = true

instance (itm : SerItem) : Decidable (hiddenSkip itm) := by
  unfold hiddenSkip; infer_instance

/-- Src lines 246–252: for non-node items the remaining kwargs are merged
into `item_props`. -/
def updatedProps (itm : SerItem) : AList :=
  if nonNode itm.ftype then aupdate (baseProps itm) (effKwargs itm)
  else baseProps itm

/-- The body of the `for itm in self._serialize():` loop of
`JsonForm.serialize` (src lines 232–273), one item at a time: write
`model[name] = value or default`; `continue` after that for hidden
non-node items; route items with truthy `choices` through
`_handle_choices` and others as a bare name onto `form`; give
`model`-typed props the fixed `add_cmd`/`list_cmd`/`wf` directives;
record `item_props` under `schema.properties[name]`; append required
names to `schema.required`.  (The `model_name` / node-`schema` lines of
the source touch only items of the node types, which the plain-field item
stream embedded here never produces.) -/
def serializeItem (st : SerState) (itm : SerItem) : SerState :=
  let model := aset st.model itm.name (modelVal itm)
  if hiddenSkip itm then
    -- hidden fields are only set in "model", bypassing the other parts
    { st with model := model }
  else
    let (item_props, form) :=
      if itm.choices ≠ [] then handle_choices itm (updatedProps itm) st.form
      else (updatedProps itm, st.form ++ [FormEntry.nameRef itm.name])
    let item_props :=
      if alookup item_props "type" = Option.some (PVal.str "model") then
        aupdate item_props
          [("add_cmd", PVal.str "add_edit_form"),
           ("list_cmd", PVal.str "select_list"),
           ("wf", PVal.str "crud")]
      else item_props
    { properties := propSet st.properties itm.name item_props
      required := if itm.required then st.required ++ [itm.name] else st.required
      form := form
      model := model }

/-! ## The form cache (`FormCache` over `zengine.lib.cache.Cache`) -/

/-- The value `_cache_form_details` stores: the model key list and the
action-only names (`{'model': form['model'].keys(), 'non_data_fields': …}`). -/
structure FormCacheEntry where
  model : List String
  non_data_fields : List String
  deriving DecidableEq, Repr

/-- The backing keyed store.  A `FormCache(form_id)` addresses the entry
under `form_id` (the `FRMCACHE` prefix is constant and elided).  Keys are
`PVal`s because `deserialize` uses the client-supplied
`form_data['form_key']` value as the key. -/
abbrev CacheStore := List (PVal × FormCacheEntry)

/-- Modelled from the spec: `zengine.lib.cache.Cache.get` is not among the
given sources; per §4.2 the store is keyed and expiring, and a `get`
yields the stored value, or nothing when the entry is absent or has
expired (absence models expiry). -/
def cacheGet (store : CacheStore) (k : PVal) : Option FormCacheEntry :=
  (store.find? (fun e => e.1 = k)).map Prod.snd

/-- Modelled from the spec: `zengine.lib.cache.Cache.set` stores the value
under the key; a `set` with an explicit key overwrites. -/
def cacheSet (store : CacheStore) (k : PVal) (v : FormCacheEntry) : CacheStore :=
  (k, v) :: store.filter (fun e => ¬ e.1 = k)

theorem cacheGet_cacheSet_self (store : CacheStore) (k : PVal) (v : FormCacheEntry) :
    cacheGet (cacheSet store k v) k = Option.some v := by
  simp [cacheGet, cacheSet, List.find?]

/-! ## `JsonForm.serialize` -/

/-- `JsonForm.serialize` together with `_cache_form_details`
(src lines 154–275 and 289–304).  `form_id` stands for the fresh
`uuid4().hex` identifier drawn by `FormCache()`.

Steps, as in the source: seed `schema`/`form`/`model` (the help entry
first), copy the whitelisted `inline_edit` Meta option to the root,
inject `object_key` / `model_type` / `unicode` when the bound model is in
the database, run the per-item loop, then `_cache_form_details`: set
`model['form_key'] = form_id` and cache
`{'model': model.keys(), 'non_data_fields': non_data_fields}` —
note the keys are cached *after* `form_key` is injected. -/
def JsonForm.serialize (f : JsonForm) (store : CacheStore) (form_id : String) :
    SerializedForm × CacheStore :=
  let model0 : AList :=
    if f.in_db then
      [("object_key", PVal.str f.model_key),
       ("model_type", PVal.str f.model_type),
       ("unicode", PVal.str f.model_unicode)]
    else []
  let st0 : SerState :=
    { properties := [], required := [], form := [FormEntry.help f.help_text],
      model := model0 }
  let st := f.serItems.foldl serializeItem st0
  let model := aset st.model "form_key" (PVal.str form_id)
  let entry : FormCacheEntry :=
    { model := akeys model, non_data_fields := f.non_data_fields }
  ({ schema_title := f.title
     properties := st.properties
     required := st.required
     form := st.form
     model := model
     inline_edit := f.inline_edit },
   cacheSet store (PVal.str form_id) entry)

/-! ## `JsonForm.deserialize` -/

/-- The ways `deserialize` can fail, named after the Python exceptions the
source raises on its target interpreter (Python 2):
`keyError` — `form_data['form_key']` with no such key;
`typeErrorNoneSubscript` — `form_details['model']` when the cache `get`
returned `None` (entry absent or expired);
`formValidationError ks` — `FormValidationError("Form keys not match: %s"
% not_matching)`, carrying the list of non-matching keys. -/
inductive DeserializeError where
  | keyError (k : String)
  | typeErrorNoneSubscript
  | formValidationError (not_matching : List String)
  deriving DecidableEq, Repr

/-- Modelled from the spec: `ModelForm._deserialize` is not among the
given sources; per §4.4 it binds each inbound key's value onto the
correspondingly named field (keys that name no field, such as `form_key`
or the injected identity keys, bind nothing), leaving fields the data
does not mention at their current values.  Per-field type/requiredness
validation is delegated to the field descriptor and out of core scope, so
binding itself always succeeds here. -/
def JsonForm.bindData (f : JsonForm) (form_data : AList) : JsonForm :=
  { f with field_values :=
      f.fields.map (fun fd =>
        (fd.name,
         match alookup form_data fd.name with
         | Option.some v => v
         | Option.none => (alookup f.field_values fd.name).getD PVal.none)) }

/-- `JsonForm.deserialize` (src lines 277–287), under the repository's
Python 2 target (its tests index exception values, which only Python 2
allows): `filter` yields a list, truthy iff non-empty.

`if form_data and do_validation:` — a dict is truthy iff non-empty.  Then
`form_data['form_key']` (KeyError when absent), `FormCache(form_id).get()`
(subscripting the `None` of a missed cache raises TypeError), the key
comparison `form_data.keys() != form_details['model']` with
`not_matching = filter(lambda x: x not in form_details['model'],
form_data.keys())` raising `FormValidationError` when non-empty, then
adoption of the cached `non_data_fields` and `self._deserialize(form_data)`. -/
def JsonForm.deserialize (f : JsonForm) (store : CacheStore) (form_data : AList)
    (do_validation : Bool) : Except DeserializeError JsonForm :=
  if form_data ≠ [] ∧ do_validation = true then
    match alookup form_data "form_key" with
    | Option.none => Except.error (DeserializeError.keyError "form_key")
    | Option.some form_id =>
      match cacheGet store form_id with
      | Option.none => Except.error DeserializeError.typeErrorNoneSubscript
      | Option.some form_details =>
        if akeys form_data ≠ form_details.model then
          let not_matching :=
            (akeys form_data).filter (fun x => x ∉ form_details.model)
          if not_matching ≠ [] then
            Except.error (DeserializeError.formValidationError not_matching)
          else
            Except.ok (JsonForm.bindData
              { f with non_data_fields := form_details.non_data_fields } form_data)
        else
          Except.ok (JsonForm.bindData
            { f with non_data_fields := form_details.non_data_fields } form_data)
  else
    Except.ok (f.bindData form_data)

/-! ## Dictionary lemmas -/

theorem alookup_aremove_other (l : AList) (k k' : String) (hne : k ≠ k') :
    alookup (aremove l k) k' = alookup l k' := by
  induction l with
  | nil => simp [aremove]
  | cons hd tl ih =>
    by_cases h : hd.1 = k
    · have : ¬ hd.1 = k' := by rw [h]; exact hne
      simp [aremove, h, alookup, this, hne]
    · simp only [aremove, h, if_false, alookup]
      by_cases h2 : hd.1 = k'
      · simp [h2]
      · simp [h2, ih]

theorem ahas_effKwargs_of_ne (itm : SerItem) (k : String)
    (h1 : k ≠ "value") (h2 : k ≠ "widget") :
    ahas (effKwargs itm) k = ahas itm.kwargs k := by
  unfold effKwargs ahas
  split
  · dsimp only
    split
    · rw [alookup_aremove_other _ _ _ (fun h => h2 h.symm),
        alookup_aremove_other _ _ _ (fun h => h1 h.symm)]
    · rw [alookup_aremove_other _ _ _ (fun h => h1 h.symm)]
  · dsimp only
    split
    · rw [alookup_aremove_other _ _ _ (fun h => h2 h.symm)]
    · rfl

theorem propGet_propSet_self (l : List (String × AList)) (k : String) (v : AList) :
    propGet (propSet l k v) k = Option.some v := by
  induction l with
  | nil => simp [propSet, propGet]
  | cons hd tl ih =>
    by_cases h : hd.1 = k
    · simp [propSet, h, propGet]
    · simp [propSet, h, propGet, ih]

theorem propGet_propSet_other (l : List (String × AList)) (k k' : String) (v : AList)
    (hne : k ≠ k') :
    propGet (propSet l k v) k' = propGet l k' := by
  induction l with
  | nil => simp [propSet, propGet, hne]
  | cons hd tl ih =>
    by_cases h : hd.1 = k
    · simp [propSet, h, propGet, hne, Ne.symm hne]
    · simp only [propSet, h, if_false, propGet]
      by_cases h2 : hd.1 = k'
      · simp [h2]
      · simp [h2, ih]

/-! ## Per-item lemmas about the serialize loop body -/

theorem serializeItem_model (st : SerState) (itm : SerItem) :
    (serializeItem st itm).model = aset st.model itm.name (modelVal itm) := by
  unfold serializeItem
  split
  · rfl
  · split
    all_goals rfl

theorem serializeItem_hidden (st : SerState) (itm : SerItem) (h : hiddenSkip itm) :
    (serializeItem st itm).properties = st.properties ∧
    (serializeItem st itm).form = st.form := by
  unfold serializeItem
  simp [h]

theorem serializeItem_form_nameRef (st : SerState) (itm : SerItem)
    (h : ¬ hiddenSkip itm) (hc : itm.choices = []) :
    (serializeItem st itm).form = st.form ++ [FormEntry.nameRef itm.name] := by
  unfold serializeItem
  simp only [h, if_false, hc]
  split <;> simp_all

theorem serializeItem_form_select (st : SerState) (itm : SerItem)
    (h : ¬ hiddenSkip itm) (hc : itm.choices ≠ []) :
    (serializeItem st itm).form =
      st.form ++ [FormEntry.selectEntry itm.name itm.title (get_choices itm.choices)] := by
  unfold serializeItem
  simp only [h, if_false, hc, if_true, handle_choices]
  split <;> simp_all [handle_choices]

theorem serializeItem_properties_other (st : SerState) (itm : SerItem) (n : String)
    (hne : itm.name ≠ n) :
    propGet (serializeItem st itm).properties n = propGet st.properties n := by
  unfold serializeItem
  split
  · rfl
  · split
    all_goals dsimp only
    all_goals split
    all_goals simp [propGet_propSet_other _ _ _ _ hne]

theorem serializeItem_properties_select (st : SerState) (itm : SerItem)
    (h : ¬ hiddenSkip itm) (hc : itm.choices ≠ []) :
    ∃ props, propGet (serializeItem st itm).properties itm.name = Option.some props ∧
      alookup props "type" = Option.some (PVal.str "select") := by
  unfold serializeItem
  rw [if_neg h]
  dsimp only
  rw [if_pos hc]
  unfold handle_choices
  dsimp only
  have htype : alookup (aset (updatedProps itm) "type" (PVal.str "select")) "type"
      = Option.some (PVal.str "select") := alookup_aset_self _ _ _
  split
  · rename_i hm
    rw [htype] at hm
    simp at hm
  · exact ⟨_, propGet_propSet_self _ _ _, htype⟩

/-! ## Lemmas about the whole serialize pass -/

/-- The field name a `form` render-list entry refers to (`None` for the
literal help entry). -/
def entryName : FormEntry → Option String
  | FormEntry.help _ => Option.none
  | FormEntry.nameRef n => Option.some n
  | FormEntry.selectEntry k _ _ => Option.some k

/-- All field names a `form` render list refers to. -/
def formNames (l : List FormEntry) : List String := l.filterMap entryName

theorem serializeItem_form_shape (st : SerState) (itm : SerItem) :
    (serializeItem st itm).form = st.form ∨
      ((serializeItem st itm).form = st.form ++ [FormEntry.nameRef itm.name] ∧
        itm.choices = [] ∧ ¬ hiddenSkip itm) ∨
      ((serializeItem st itm).form =
          st.form ++ [FormEntry.selectEntry itm.name itm.title (get_choices itm.choices)] ∧
        itm.choices ≠ [] ∧ ¬ hiddenSkip itm) := by
  by_cases h : hiddenSkip itm
  · exact Or.inl (serializeItem_hidden st itm h).2
  · by_cases hc : itm.choices = []
    · exact Or.inr (Or.inl ⟨serializeItem_form_nameRef st itm h hc, hc, h⟩)
    · exact Or.inr (Or.inr ⟨serializeItem_form_select st itm h hc, hc, h⟩)

theorem foldl_model_lookup_not_mem (items : List SerItem) (st : SerState) (n : String)
    (h : ∀ itm ∈ items, itm.name ≠ n) :
    alookup (items.foldl serializeItem st).model n = alookup st.model n := by
  induction items generalizing st with
  | nil => rfl
  | cons itm rest ih =>
    rw [List.foldl_cons, ih _ (fun i hi => h i (List.mem_cons_of_mem _ hi)),
      serializeItem_model, alookup_aset_other _ _ _ _ (h itm (List.mem_cons_self _ _))]

theorem foldl_model_lookup_mem (l1 l2 : List SerItem) (itm : SerItem) (st : SerState)
    (h2 : ∀ i ∈ l2, i.name ≠ itm.name) :
    alookup ((l1 ++ itm :: l2).foldl serializeItem st).model itm.name
      = Option.some (modelVal itm) := by
  rw [List.foldl_append, List.foldl_cons,
    foldl_model_lookup_not_mem _ _ _ h2, serializeItem_model, alookup_aset_self]

theorem foldl_form_mem_preserved (items : List SerItem) (st : SerState) (e : FormEntry)
    (h : e ∈ st.form) : e ∈ (items.foldl serializeItem st).form := by
  induction items generalizing st with
  | nil => exact h
  | cons itm rest ih =>
    rw [List.foldl_cons]
    refine ih _ ?_
    rcases serializeItem_form_shape st itm with hs | ⟨hs, _⟩ | ⟨hs, _⟩ <;>
      simp [hs, h]

theorem foldl_form_mem_cases (items : List SerItem) (st : SerState) (e : FormEntry)
    (h : e ∈ (items.foldl serializeItem st).form) :
    e ∈ st.form ∨ ∃ itm ∈ items, ¬ hiddenSkip itm ∧
      ((itm.choices = [] ∧ e = FormEntry.nameRef itm.name) ∨
       (itm.choices ≠ [] ∧
        e = FormEntry.selectEntry itm.name itm.title (get_choices itm.choices))) := by
  induction items generalizing st with
  | nil => exact Or.inl h
  | cons itm rest ih =>
    rw [List.foldl_cons] at h
    rcases ih _ h with h' | ⟨i, hi, hcase⟩
    · rcases serializeItem_form_shape st itm with hs | ⟨hs, hc, hh⟩ | ⟨hs, hc, hh⟩
      · rw [hs] at h'; exact Or.inl h'
      · rw [hs, List.mem_append, List.mem_singleton] at h'
        rcases h' with h' | h'
        · exact Or.inl h'
        · exact Or.inr ⟨itm, List.mem_cons_self _ _, hh, Or.inl ⟨hc, h'⟩⟩
      · rw [hs, List.mem_append, List.mem_singleton] at h'
        rcases h' with h' | h'
        · exact Or.inl h'
        · exact Or.inr ⟨itm, List.mem_cons_self _ _, hh, Or.inr ⟨hc, h'⟩⟩
    · exact Or.inr ⟨i, List.mem_cons_of_mem _ hi, hcase⟩

theorem foldl_form_not_mentioned (items : List SerItem) (st : SerState) (n : String)
    (h : ∀ itm ∈ items, itm.name ≠ n ∨ hiddenSkip itm)
    (h0 : n ∉ formNames st.form) :
    n ∉ formNames (items.foldl serializeItem st).form := by
  intro hmem
  rw [formNames, List.mem_filterMap] at hmem
  obtain ⟨e, he, hname⟩ := hmem
  rcases foldl_form_mem_cases items st e he with h' | ⟨i, hi, hnh, hcase⟩
  · exact h0 (by rw [formNames, List.mem_filterMap]; exact ⟨e, h', hname⟩)
  · rcases h i hi with hne | hhid
    · rcases hcase with ⟨_, rfl⟩ | ⟨_, rfl⟩ <;>
        (rw [entryName] at hname; exact hne (Option.some.inj hname))
    · exact hnh hhid

theorem foldl_properties_lookup (items : List SerItem) (st : SerState) (n : String)
    (h : ∀ itm ∈ items, itm.name ≠ n ∨ hiddenSkip itm) :
    propGet (items.foldl serializeItem st).properties n = propGet st.properties n := by
  induction items generalizing st with
  | nil => rfl
  | cons itm rest ih =>
    rw [List.foldl_cons, ih _ (fun i hi => h i (List.mem_cons_of_mem _ hi))]
    rcases h itm (List.mem_cons_self _ _) with hne | hhid
    · exact serializeItem_properties_other st itm n hne
    · rw [(serializeItem_hidden st itm hhid).1]

theorem foldl_properties_select (l1 l2 : List SerItem) (itm : SerItem) (st : SerState)
    (h2 : ∀ i ∈ l2, i.name ≠ itm.name)
    (hnh : ¬ hiddenSkip itm) (hc : itm.choices ≠ []) :
    ∃ props,
      propGet ((l1 ++ itm :: l2).foldl serializeItem st).properties itm.name
        = Option.some props ∧
      alookup props "type" = Option.some (PVal.str "select") := by
  rw [List.foldl_append, List.foldl_cons,
    foldl_properties_lookup _ _ _ (fun i hi => Or.inl (h2 i hi))]
  exact serializeItem_properties_select _ itm hnh hc

/-! ## Field registry / item-stream bookkeeping -/

theorem mkSerItem_name (f : JsonForm) (fd : BaseField) : (f.mkSerItem fd).name = fd.name :=
  rfl

theorem sortByOrder_perm (fs : List BaseField) : List.Perm (sortByOrder fs) fs :=
  List.perm_insertionSort _ fs

theorem mem_sortByOrder (fs : List BaseField) (fd : BaseField) :
    fd ∈ sortByOrder fs ↔ fd ∈ fs :=
  (sortByOrder_perm fs).mem_iff

theorem nodup_names_sortByOrder (fs : List BaseField)
    (h : (fs.map BaseField.name).Nodup) :
    ((sortByOrder fs).map BaseField.name).Nodup :=
  (((sortByOrder_perm fs).map BaseField.name).nodup_iff).mpr h

/-- Split the sorted field list around a given member whose name is unique:
the surrounding fields all carry other names. -/
theorem sorted_split (f : JsonForm) (fd : BaseField)
    (hmem : fd ∈ f.fields) (hnodup : (f.fields.map BaseField.name).Nodup) :
    ∃ l1 l2, sortByOrder f.fields = l1 ++ fd :: l2 ∧
      (∀ g ∈ l1, g.name ≠ fd.name) ∧ (∀ g ∈ l2, g.name ≠ fd.name) := by
  have hmem' : fd ∈ sortByOrder f.fields := (mem_sortByOrder _ _).mpr hmem
  obtain ⟨l1, l2, hsplit⟩ := List.append_of_mem hmem'
  refine ⟨l1, l2, hsplit, ?_, ?_⟩
  · intro g hg heq
    have hnd := nodup_names_sortByOrder f.fields hnodup
    rw [hsplit, List.map_append, List.map_cons] at hnd
    have h1 := (List.nodup_append.mp hnd).2.2
    exact h1 (List.mem_map_of_mem _ hg) (heq ▸ List.mem_cons_self _ _)
  · intro g hg heq
    have hnd := nodup_names_sortByOrder f.fields hnodup
    rw [hsplit, List.map_append, List.map_cons] at hnd
    have h2 := (List.nodup_append.mp hnd).2.1
    rw [List.nodup_cons] at h2
    exact h2.1 (heq ▸ List.mem_map_of_mem BaseField.name hg)

/-- `serItems` around the unique occurrence of a field's item. -/
theorem serItems_split (f : JsonForm) (fd : BaseField)
    (hmem : fd ∈ f.fields) (hnodup : (f.fields.map BaseField.name).Nodup) :
    ∃ i1 i2, f.serItems = i1 ++ f.mkSerItem fd :: i2 ∧
      (∀ i ∈ i1, i.name ≠ fd.name) ∧ (∀ i ∈ i2, i.name ≠ fd.name) := by
  obtain ⟨l1, l2, hsplit, h1, h2⟩ := sorted_split f fd hmem hnodup
  refine ⟨l1.map f.mkSerItem, l2.map f.mkSerItem, ?_, ?_, ?_⟩
  · rw [JsonForm.serItems, hsplit, List.map_append, List.map_cons]
  · intro i hi
    obtain ⟨g, hg, rfl⟩ := List.mem_map.mp hi
    exact h1 g hg
  · intro i hi
    obtain ⟨g, hg, rfl⟩ := List.mem_map.mp hi
    exact h2 g hg

/-- Every item of the stream comes from a registered field with the same
name (and the same choices / kwargs / title). -/
theorem serItems_mem (f : JsonForm) (i : SerItem) (hi : i ∈ f.serItems) :
    ∃ fd ∈ f.fields, i = f.mkSerItem fd := by
  rw [JsonForm.serItems] at hi
  obtain ⟨fd, hfd, rfl⟩ := List.mem_map.mp hi
  exact ⟨fd, (mem_sortByOrder _ _).mp hfd, rfl⟩

/-- Looking a field's name up in the `name → g fd` association list built
from a registry with unique names. -/
theorem alookup_map_fields (l : List BaseField) (g : BaseField → PVal) (fd : BaseField)
    (hmem : fd ∈ l) (hnodup : (l.map BaseField.name).Nodup) :
    alookup (l.map (fun x => (x.name, g x))) fd.name = Option.some (g fd) := by
  induction l with
  | nil => cases hmem
  | cons hd tl ih =>
    rcases List.mem_cons.mp hmem with rfl | hmem'
    · simp [alookup]
    · have hnd : (List.map BaseField.name (hd :: tl)).Nodup := hnodup
      rw [List.map_cons, List.nodup_cons] at hnd
      have hne : hd.name ≠ fd.name := fun heq =>
        hnd.1 (heq ▸ List.mem_map_of_mem BaseField.name hmem')
      simp only [List.map_cons, alookup, hne, if_false]
      exact ih hmem' hnd.2

/-! ## Lemmas about `JsonForm.serialize` as a whole -/

theorem aset_ne_nil (l : AList) (k : String) (v : PVal) : aset l k v ≠ [] := by
  cases l with
  | nil => simp [aset]
  | cons hd tl => by_cases h : hd.1 = k <;> simp [aset, h]

theorem mem_akeys_of_alookup (l : AList) (k : String) (v : PVal)
    (h : alookup l k = Option.some v) : k ∈ akeys l := by
  induction l with
  | nil => simp [alookup] at h
  | cons hd tl ih =>
    rw [alookup] at h
    by_cases h2 : hd.1 = k
    · simp [akeys, h2]
    · rw [if_neg h2] at h
      exact List.mem_cons_of_mem _ (ih h)

theorem aset_not_mem (l : AList) (k : String) (v : PVal) (h : k ∉ akeys l) :
    aset l k v = l ++ [(k, v)] := by
  induction l with
  | nil => simp [aset]
  | cons hd tl ih =>
    rw [akeys, List.map_cons, List.mem_cons] at h
    push_neg at h
    rw [aset, if_neg (fun he => h.1 he.symm), List.cons_append, ih h.2]

theorem serialize_form_key (f : JsonForm) (store : CacheStore) (fid : String) :
    alookup (f.serialize store fid).1.model "form_key"
      = Option.some (PVal.str fid) := by
  simp only [JsonForm.serialize]
  exact alookup_aset_self _ _ _

theorem serialize_model_ne_nil (f : JsonForm) (store : CacheStore) (fid : String) :
    (f.serialize store fid).1.model ≠ [] := by
  simp only [JsonForm.serialize]
  exact aset_ne_nil _ _ _

theorem serialize_cached_entry (f : JsonForm) (store : CacheStore) (fid : String) :
    cacheGet (f.serialize store fid).2 (PVal.str fid)
      = Option.some { model := akeys (f.serialize store fid).1.model
                      non_data_fields := f.non_data_fields } := by
  simp only [JsonForm.serialize]
  exact cacheGet_cacheSet_self _ _ _

theorem serialize_form_eq_foldl (f : JsonForm) (store : CacheStore) (fid : String) :
    (f.serialize store fid).1.form =
      (f.serItems.foldl serializeItem
        { properties := [], required := [], form := [FormEntry.help f.help_text]
          model := if f.in_db then
              [("object_key", PVal.str f.model_key),
               ("model_type", PVal.str f.model_type),
               ("unicode", PVal.str f.model_unicode)]
            else [] }).form := rfl

theorem serialize_properties_eq_foldl (f : JsonForm) (store : CacheStore) (fid : String) :
    (f.serialize store fid).1.properties =
      (f.serItems.foldl serializeItem
        { properties := [], required := [], form := [FormEntry.help f.help_text]
          model := if f.in_db then
              [("object_key", PVal.str f.model_key),
               ("model_type", PVal.str f.model_type),
               ("unicode", PVal.str f.model_unicode)]
            else [] }).properties := rfl

/-- The `model` entry written for a registered field (whose name the
`form_key` injection does not overwrite): `value or default`, the value
being popped from the kwargs when the bound one is falsy. -/
theorem serialize_model_lookup (f : JsonForm) (store : CacheStore) (fid : String)
    (fd : BaseField) (hmem : fd ∈ f.fields)
    (hnodup : (f.fields.map BaseField.name).Nodup)
    (hfk : fd.name ≠ "form_key") :
    alookup (f.serialize store fid).1.model fd.name
      = Option.some (modelVal (f.mkSerItem fd)) := by
  obtain ⟨i1, i2, hsplit, _, h2⟩ := serItems_split f fd hmem hnodup
  simp only [JsonForm.serialize]
  rw [alookup_aset_other _ _ _ _ (fun h => hfk h.symm), hsplit]
  exact foldl_model_lookup_mem i1 i2 _ _ (fun i hi => h2 i hi)

/-- Names are a no-duplicate key for the registry: two registered fields
with one name are one field. -/
theorem fields_name_inj (f : JsonForm) (hnodup : (f.fields.map BaseField.name).Nodup)
    (g1 g2 : BaseField) (h1 : g1 ∈ f.fields) (h2 : g2 ∈ f.fields)
    (heq : g1.name = g2.name) : g1 = g2 :=
  List.inj_on_of_nodup_map hnodup h1 h2 heq

/-! ## Concrete fixtures (shaped after the `TestForm` of the source's
docstring: a string field, an optional integer field, a save button, a
hidden field, a choices field) -/

def codeField : BaseField :=
  { name := "code", title := "Code Field", ftype := "string", required := true
    order := 1, default := PVal.none, kwargs := [], choices := [], isButton := false }

def noField : BaseField :=
  { name := "no", title := "Part No", ftype := "int", required := false
    order := 2, default := PVal.int 7, kwargs := [], choices := [], isButton := false }

def hidField : BaseField :=
  { name := "hid", title := "Hidden Field", ftype := "string", required := false
    order := 3, default := PVal.str "secret", kwargs := [("hidden", PVal.bool true)]
    choices := [], isButton := false }

def chField : BaseField :=
  { name := "ch", title := "Choice Field", ftype := "int", required := false
    order := 4, default := PVal.none, kwargs := []
    choices := [(PVal.int 1, "A"), (PVal.int 2, "B")], isButton := false }

def saveButton : BaseField :=
  { name := "save", title := "Save", ftype := "button", required := false
    order := 9, default := PVal.none, kwargs := [], choices := [], isButton := true }

/-- A fresh bound instance over the given descriptors, as `__init__` +
`process_form` leave it (empty values, button names in
`non_data_fields`, not bound to a database record). -/
def mkTestForm (fs : List BaseField) : JsonForm :=
  { fields := fs
    field_values := []
    non_data_fields := (process_form fs).2
    title := "Form Title"
    help_text := "Form help text"
    inline_edit := Option.none
    in_db := false
    model_key := ""
    model_type := ""
    model_unicode := "" }

instance {ε α : Type} [DecidableEq ε] [DecidableEq α] : DecidableEq (Except ε α) :=
  fun a b =>
    match a, b with
    | Except.error e1, Except.error e2 =>
      if h : e1 = e2 then Decidable.isTrue (by rw [h])
      else Decidable.isFalse (by intro hh; cases hh; exact h rfl)
    | Except.ok v1, Except.ok v2 =>
      if h : v1 = v2 then Decidable.isTrue (by rw [h])
      else Decidable.isFalse (by intro hh; cases hh; exact h rfl)
    | Except.error _, Except.ok _ => Decidable.isFalse (by intro hh; cases hh)
    | Except.ok _, Except.error _ => Decidable.isFalse (by intro hh; cases hh)

/-! ## The claims -/

/-- C10: when `form_data` is a falsy (empty) mapping, `deserialize` with
validation requested performs no cache lookup, no key-set comparison and
no adoption of cached non-data field names: it binds directly on the given
data (the result neither depends on the cache store nor changes the
instance's action-only list). -/
theorem C10_falsy_form_data_skips_validation (f : JsonForm) (store : CacheStore) :
    f.deserialize store [] true = Except.ok (f.bindData []) := by
  simp [JsonForm.deserialize]

/-- C4 (code behaviour at the claim's failing input): when the cache
entry for the submitted `form_key` is absent or expired, `deserialize`
subscripts the `None` that the cache `get` returned — a `TypeError`-style
crash, not the NotFound-style validation error the claim demands. -/
theorem C4_cache_miss_is_a_crash :
    (mkTestForm [codeField]).deserialize []
        [("form_key", PVal.str "gone"), ("code", PVal.str "x")] true
      = Except.error DeserializeError.typeErrorNoneSubscript := by
  decide

/-- C3 (amended): the cache entry written for a render stores as its
data-field-name list exactly *all* keys of the returned `model` — the
injected `form_key` (set before the keys are read) and, for persisted
records, the identity keys included — together with the action-only
names. -/
theorem C3_amended_cached_names_are_all_model_keys (f : JsonForm) (store : CacheStore)
    (fid : String) :
    cacheGet (f.serialize store fid).2 (PVal.str fid)
      = Option.some { model := akeys (f.serialize store fid).1.model
                      non_data_fields := f.non_data_fields } :=
  serialize_cached_entry f store fid

/-- C3 (counterexample): for a one-field form, the cached name list is
`["code", "form_key"]`, not the model keys minus the injected
`form_key`/identity keys (which would be `["code"]`). -/
theorem C3_counterexample :
    cacheGet ((mkTestForm [codeField]).serialize [] "K1").2 (PVal.str "K1")
        = Option.some { model := ["code", "form_key"], non_data_fields := [] } ∧
      (akeys ((mkTestForm [codeField]).serialize [] "K1").1.model).filter
          (fun k => ¬ k ∈ ["form_key", "object_key", "model_type", "unicode"])
        = ["code"] ∧
      ["code", "form_key"] ≠ ["code"] := by
  decide

/-- C9 (amended): the `model` entry under a serialized field's name is the
field's bound value when that value is truthy; when it is falsy, it is the
`value` supplied in the field's kwargs if one exists, and the field's
default otherwise — so a falsy present value (0, "", False) is *not*
used as-is. -/
theorem C9_amended_model_entry_is_value_or_default (f : JsonForm) (store : CacheStore)
    (fid : String) (fd : BaseField) (hmem : fd ∈ f.fields)
    (hnodup : (f.fields.map BaseField.name).Nodup)
    (hfk : fd.name ≠ "form_key") :
    alookup (f.serialize store fid).1.model fd.name
      = Option.some (pyOr (effValue (f.mkSerItem fd)) fd.default) :=
  serialize_model_lookup f store fid fd hmem hnodup hfk

theorem C9_amended_witness :
    codeField ∈ [codeField] ∧ (([codeField].map BaseField.name).Nodup) ∧
      "code" ≠ "form_key" ∧
      alookup (((mkTestForm [codeField]).set_data [("code", PVal.str "X")]).serialize
          [] "K2").1.model "code"
        = Option.some (pyOr
            (effValue (((mkTestForm [codeField]).set_data
              [("code", PVal.str "X")]).mkSerItem codeField)) codeField.default) :=
  ⟨by decide, by decide, by decide,
    C9_amended_model_entry_is_value_or_default
      ((mkTestForm [codeField]).set_data [("code", PVal.str "X")]) [] "K2" codeField
      (by decide) (by decide) (by decide)⟩

/-- C9 (counterexample): a bound value of `0` (present but falsy) is
replaced by the default `7` in the serialized `model` — the entry does not
equal the present bound value. -/
theorem C9_counterexample :
    alookup (((mkTestForm [noField]).set_data [("no", PVal.int 0)]).serialize
        [] "K3").1.model "no" = Option.some (PVal.int 7) ∧
      Option.some (PVal.int 7) ≠ Option.some (PVal.int 0) := by
  decide

/-- C6: a non-node field marked hidden (a `hidden` kwarg) never appears in
the returned `form` render list (neither as a bare name reference nor as a
select-widget key) nor as a key of `schema.properties`, while its
value-or-default is always written into `model` under its name. -/
theorem C6_hidden_field_exclusion (f : JsonForm) (store : CacheStore) (fid : String)
    (fd : BaseField) (hmem : fd ∈ f.fields)
    (hnodup : (f.fields.map BaseField.name).Nodup)
    (hhid : ahas fd.kwargs "hidden" = true)
    (hnn : nonNode fd.ftype)
    (hfk : fd.name ≠ "form_key") :
    fd.name ∉ formNames (f.serialize store fid).1.form ∧
      propGet (f.serialize store fid).1.properties fd.name = Option.none ∧
      alookup (f.serialize store fid).1.model fd.name
        = Option.some (pyOr (effValue (f.mkSerItem fd)) fd.default) := by
  have hskip : hiddenSkip (f.mkSerItem fd) := by
    refine ⟨hnn, ?_⟩
    rw [ahas_effKwargs_of_ne _ _ (by decide) (by decide)]
    exact hhid
  have hcond : ∀ itm ∈ f.serItems, itm.name ≠ fd.name ∨ hiddenSkip itm := by
    intro itm hitm
    obtain ⟨g, hg, rfl⟩ := serItems_mem f itm hitm
    by_cases hne : g.name = fd.name
    · exact Or.inr (fields_name_inj f hnodup g fd hg hmem hne ▸ hskip)
    · exact Or.inl hne
  refine ⟨?_, ?_, ?_⟩
  · rw [serialize_form_eq_foldl]
    exact foldl_form_not_mentioned _ _ _ hcond (by simp [formNames, entryName])
  · rw [serialize_properties_eq_foldl]
    rw [foldl_properties_lookup _ _ _ hcond]
    rfl
  · exact serialize_model_lookup f store fid fd hmem hnodup hfk

theorem C6_witness :
    hidField ∈ [codeField, hidField] ∧
      (([codeField, hidField].map BaseField.name).Nodup) ∧
      ahas hidField.kwargs "hidden" = true ∧ nonNode hidField.ftype ∧
      "hid" ≠ "form_key" ∧
      ("hid" ∉ formNames ((mkTestForm [codeField, hidField]).serialize [] "K4").1.form ∧
        propGet ((mkTestForm [codeField, hidField]).serialize [] "K4").1.properties "hid"
          = Option.none ∧
        alookup ((mkTestForm [codeField, hidField]).serialize [] "K4").1.model "hid"
          = Option.some (pyOr
              (effValue ((mkTestForm [codeField, hidField]).mkSerItem hidField))
              hidField.default)) :=
  ⟨by decide, by decide, by decide, by decide, by decide,
    C6_hidden_field_exclusion (mkTestForm [codeField, hidField]) [] "K4" hidField
      (by decide) (by decide) (by decide) (by decide) (by decide)⟩

/-- C7: a non-hidden field that declares choice pairs is rendered as the
inline select-widget entry `{key, type: "select", title, titleMap}` (the
titleMap being the `{value, label}` image of the choice pairs) instead of
a bare name reference, and its `schema.properties` entry has type
`"select"`. -/
theorem C7_choice_transformation (f : JsonForm) (store : CacheStore) (fid : String)
    (fd : BaseField) (hmem : fd ∈ f.fields)
    (hnodup : (f.fields.map BaseField.name).Nodup)
    (hc : fd.choices ≠ [])
    (hhid : ahas fd.kwargs "hidden" = false) :
    FormEntry.selectEntry fd.name fd.title (get_choices fd.choices)
        ∈ (f.serialize store fid).1.form ∧
      FormEntry.nameRef fd.name ∉ (f.serialize store fid).1.form ∧
      ∃ props, propGet (f.serialize store fid).1.properties fd.name
          = Option.some props ∧
        alookup props "type" = Option.some (PVal.str "select") := by
  have hnh : ¬ hiddenSkip (f.mkSerItem fd) := by
    intro hsk
    rw [hiddenSkip, ahas_effKwargs_of_ne _ _ (by decide) (by decide)] at hsk
    rw [show (f.mkSerItem fd).kwargs = fd.kwargs from rfl, hhid] at hsk
    cases hsk.2
  have hc' : (f.mkSerItem fd).choices ≠ [] := hc
  obtain ⟨i1, i2, hsplit, h1, h2⟩ := serItems_split f fd hmem hnodup
  refine ⟨?_, ?_, ?_⟩
  · rw [serialize_form_eq_foldl, hsplit, List.foldl_append, List.foldl_cons]
    refine foldl_form_mem_preserved _ _ _ ?_
    rw [serializeItem_form_select _ _ hnh hc']
    exact List.mem_append_right _ (List.mem_singleton.mpr rfl)
  · rw [serialize_form_eq_foldl]
    intro hmem'
    rcases foldl_form_mem_cases _ _ _ hmem' with h' | ⟨i, hi, _, hcase⟩
    · simp at h'
    · obtain ⟨g, hg, rfl⟩ := serItems_mem f i hi
      rcases hcase with ⟨hgc, hge⟩ | ⟨_, hge⟩
      · have hname : fd.name = g.name := FormEntry.nameRef.inj hge
        have : g = fd := fields_name_inj f hnodup g fd hg hmem hname.symm
        rw [this] at hgc
        exact hc hgc
      · cases hge
  · rw [serialize_properties_eq_foldl, hsplit]
    exact foldl_properties_select i1 i2 _ _ h2 hnh hc'

theorem C7_witness :
    chField ∈ [codeField, chField] ∧
      (([codeField, chField].map BaseField.name).Nodup) ∧
      chField.choices ≠ [] ∧ ahas chField.kwargs "hidden" = false ∧
      (FormEntry.selectEntry "ch" "Choice Field"
          [{ value := PVal.int 1, label := "A" }, { value := PVal.int 2, label := "B" }]
          ∈ ((mkTestForm [codeField, chField]).serialize [] "K5").1.form ∧
        FormEntry.nameRef "ch" ∉ ((mkTestForm [codeField, chField]).serialize [] "K5").1.form ∧
        ∃ props, propGet ((mkTestForm [codeField, chField]).serialize [] "K5").1.properties
            "ch" = Option.some props ∧
          alookup props "type" = Option.some (PVal.str "select")) :=
  ⟨by decide, by decide, by decide, by decide,
    C7_choice_transformation (mkTestForm [codeField, chField]) [] "K5" chField
      (by decide) (by decide) (by decide) (by decide)⟩

/-- C5: when the inbound data's keys are all among the cached
data-field names (no extra keys; some cached keys may be missing),
`deserialize` raises nothing at the key-set comparison stage: it adopts
the cached non-data names and proceeds straight to binding. -/
theorem C5_subset_passes_key_comparison (f : JsonForm) (store : CacheStore)
    (form_data : AList) (fk : PVal) (cd : FormCacheEntry)
    (h0 : form_data ≠ [])
    (h1 : alookup form_data "form_key" = Option.some fk)
    (h2 : cacheGet store fk = Option.some cd)
    (h3 : ∀ x ∈ akeys form_data, x ∈ cd.model) :
    f.deserialize store form_data true =
      Except.ok (JsonForm.bindData { f with non_data_fields := cd.non_data_fields }
        form_data) := by
  unfold JsonForm.deserialize
  rw [if_pos ⟨h0, rfl⟩, h1]
  dsimp only
  rw [h2]
  dsimp only
  by_cases hk : akeys form_data ≠ cd.model
  · rw [if_pos hk]
    have hfil : (akeys form_data).filter (fun x => x ∉ cd.model) = [] := by
      rw [List.filter_eq_nil_iff]
      intro a ha
      simp [h3 a ha]
    rw [if_neg (by rw [hfil]; simp)]
  · rw [if_neg hk]

theorem C5_witness :
    ([("form_key", PVal.str "K6"), ("code", PVal.str "x")] : AList) ≠ [] ∧
      alookup [("form_key", PVal.str "K6"), ("code", PVal.str "x")] "form_key"
        = Option.some (PVal.str "K6") ∧
      cacheGet [(PVal.str "K6",
          { model := ["code", "no", "form_key"], non_data_fields := ["save"] })]
        (PVal.str "K6")
        = Option.some { model := ["code", "no", "form_key"], non_data_fields := ["save"] } ∧
      (∀ x ∈ akeys [("form_key", PVal.str "K6"), ("code", PVal.str "x")],
        x ∈ ["code", "no", "form_key"]) ∧
      (mkTestForm [codeField, noField]).deserialize
          [(PVal.str "K6",
            { model := ["code", "no", "form_key"], non_data_fields := ["save"] })]
          [("form_key", PVal.str "K6"), ("code", PVal.str "x")] true
        = Except.ok (JsonForm.bindData
            { mkTestForm [codeField, noField] with non_data_fields := ["save"] }
            [("form_key", PVal.str "K6"), ("code", PVal.str "x")]) :=
  ⟨by decide, by decide, by decide, by decide,
    C5_subset_passes_key_comparison (mkTestForm [codeField, noField])
      [(PVal.str "K6", { model := ["code", "no", "form_key"], non_data_fields := ["save"] })]
      [("form_key", PVal.str "K6"), ("code", PVal.str "x")]
      (PVal.str "K6") { model := ["code", "no", "form_key"], non_data_fields := ["save"] }
      (by decide) (by decide) (by decide) (by decide)⟩

/-- C2: submitting a serialized `model` extended with one extra key (a key
the model — and hence the cached name list — does not contain) makes
validation fail with a `FormValidationError` whose payload names exactly
that key. -/
theorem C2_tamper_rejection (f g : JsonForm) (store : CacheStore) (fid : String)
    (k : String) (v : PVal)
    (hk : k ∉ akeys (f.serialize store fid).1.model) :
    g.deserialize (f.serialize store fid).2
        (aset (f.serialize store fid).1.model k v) true
      = Except.error (DeserializeError.formValidationError [k]) := by
  have hfk : alookup (f.serialize store fid).1.model "form_key"
      = Option.some (PVal.str fid) := serialize_form_key f store fid
  have hkfk : k ≠ "form_key" := fun he => hk (he ▸ mem_akeys_of_alookup _ _ _ hfk)
  have haset : aset (f.serialize store fid).1.model k v
      = (f.serialize store fid).1.model ++ [(k, v)] := aset_not_mem _ _ _ hk
  have hkeys : akeys (aset (f.serialize store fid).1.model k v)
      = akeys (f.serialize store fid).1.model ++ [k] := by
    rw [haset, akeys, List.map_append]; rfl
  unfold JsonForm.deserialize
  rw [if_pos ⟨by rw [haset]; simp, rfl⟩,
    alookup_aset_other _ _ _ _ hkfk, hfk]
  dsimp only
  rw [serialize_cached_entry]
  dsimp only
  rw [if_pos (by
    rw [hkeys]
    intro hcontra
    have := congrArg List.length hcontra
    simp at this)]
  rw [if_pos (by
    rw [hkeys, List.filter_append]
    have hfil : (akeys (f.serialize store fid).1.model).filter
        (fun x => x ∉ akeys (f.serialize store fid).1.model) = [] := by
      rw [List.filter_eq_nil_iff]
      intro a ha
      simp [ha]
    rw [hfil]
    simp [hk])]
  rw [hkeys, List.filter_append]
  have hfil : (akeys (f.serialize store fid).1.model).filter
      (fun x => x ∉ akeys (f.serialize store fid).1.model) = [] := by
    rw [List.filter_eq_nil_iff]
    intro a ha
    simp [ha]
  rw [hfil]
  simp [hk]

theorem C2_witness :
    "extra" ∉ akeys ((mkTestForm [codeField]).serialize [] "K7").1.model ∧
      (mkTestForm [codeField]).deserialize
          ((mkTestForm [codeField]).serialize [] "K7").2
          (aset ((mkTestForm [codeField]).serialize [] "K7").1.model "extra"
            (PVal.str "evil")) true
        = Except.error (DeserializeError.formValidationError ["extra"]) :=
  ⟨by decide,
    C2_tamper_rejection (mkTestForm [codeField]) (mkTestForm [codeField]) [] "K7"
      "extra" (PVal.str "evil") (by decide)⟩

theorem alookup_set_data (f : JsonForm) (data : AList) (fd : BaseField)
    (hmem : fd ∈ f.fields) (hnodup : (f.fields.map BaseField.name).Nodup) :
    alookup (f.set_data data).field_values fd.name
      = Option.some ((alookup data fd.name).getD PVal.none) :=
  alookup_map_fields f.fields _ fd hmem hnodup

theorem alookup_bindData (f : JsonForm) (form_data : AList) (fd : BaseField)
    (hmem : fd ∈ f.fields) (hnodup : (f.fields.map BaseField.name).Nodup) :
    alookup (f.bindData form_data).field_values fd.name
      = Option.some (match alookup form_data fd.name with
          | Option.some v => v
          | Option.none => (alookup f.field_values fd.name).getD PVal.none) :=
  alookup_map_fields f.fields _ fd hmem hnodup

/-- C1 (amended): for a form whose field names are unique and clear of
the injected `form_key`, and data whose value is *truthy* for every
non-hidden, non-action field, `deserialize(serialize(data).model,
validate=true)` succeeds and binds back exactly the original data for
every non-hidden, non-action field.  (Falsy data values do not round-trip:
serialization replaces them by the field default, see the C9
counterexample.) -/
theorem C1_amended_round_trip (f : JsonForm) (data : AList) (store : CacheStore)
    (fid : String)
    (hnodup : (f.fields.map BaseField.name).Nodup)
    (hfk : ∀ fd ∈ f.fields, fd.name ≠ "form_key")
    (htr : ∀ fd ∈ f.fields, ahas fd.kwargs "hidden" = false → fd.isButton = false →
      ((alookup data fd.name).getD PVal.none).truthy = true) :
    ∃ f', (f.set_data data).deserialize
        ((f.set_data data).serialize store fid).2
        ((f.set_data data).serialize store fid).1.model true = Except.ok f' ∧
      ∀ fd ∈ f.fields, ahas fd.kwargs "hidden" = false → fd.isButton = false →
        alookup f'.field_values fd.name = alookup data fd.name := by
  refine ⟨(f.set_data data).bindData
    ((f.set_data data).serialize store fid).1.model, ?_, ?_⟩
  · unfold JsonForm.deserialize
    rw [if_pos ⟨serialize_model_ne_nil _ _ _, rfl⟩, serialize_form_key]
    dsimp only
    rw [serialize_cached_entry]
    dsimp only
    rw [if_neg (by simp)]
  · intro fd hmem hh hb
    have hval := alookup_set_data f data fd hmem hnodup
    have hdv : ((f.set_data data).mkSerItem fd).value
        = (alookup data fd.name).getD PVal.none := by
      show (alookup (f.set_data data).field_values fd.name).getD PVal.none = _
      rw [hval]
      rfl
    have htruth := htr fd hmem hh hb
    have heff : effValue ((f.set_data data).mkSerItem fd)
        = (alookup data fd.name).getD PVal.none := by
      rw [effValue, if_neg, hdv]
      intro hc
      rw [hdv, htruth] at hc
      simp at hc
    have hmodelVal : modelVal ((f.set_data data).mkSerItem fd)
        = (alookup data fd.name).getD PVal.none := by
      rw [modelVal, heff]
      simp [pyOr, htruth]
    have hmodel : alookup ((f.set_data data).serialize store fid).1.model fd.name
        = Option.some ((alookup data fd.name).getD PVal.none) := by
      rw [serialize_model_lookup (f.set_data data) store fid fd hmem hnodup
        (hfk fd hmem), hmodelVal]
    rw [alookup_bindData (f.set_data data) _ fd hmem hnodup, hmodel]
    dsimp only
    cases halo : alookup data fd.name with
    | none => rw [halo] at htruth; simp [PVal.truthy] at htruth
    | some v => rfl

theorem C1_amended_witness :
    (([codeField, saveButton].map BaseField.name).Nodup) ∧
      (∀ fd ∈ [codeField, saveButton], fd.name ≠ "form_key") ∧
      (∀ fd ∈ [codeField, saveButton], ahas fd.kwargs "hidden" = false →
        fd.isButton = false →
        ((alookup [("code", PVal.str "X")] fd.name).getD PVal.none).truthy = true) ∧
      (∃ f', ((mkTestForm [codeField, saveButton]).set_data
            [("code", PVal.str "X")]).deserialize
          (((mkTestForm [codeField, saveButton]).set_data
            [("code", PVal.str "X")]).serialize [] "K8").2
          (((mkTestForm [codeField, saveButton]).set_data
            [("code", PVal.str "X")]).serialize [] "K8").1.model true = Except.ok f' ∧
        ∀ fd ∈ [codeField, saveButton], ahas fd.kwargs "hidden" = false →
          fd.isButton = false →
          alookup f'.field_values fd.name = alookup [("code", PVal.str "X")] fd.name) :=
  ⟨by decide, by decide, by decide,
    C1_amended_round_trip (mkTestForm [codeField, saveButton])
      [("code", PVal.str "X")] [] "K8" (by decide) (by decide) (by decide)⟩

/-- C1 (counterexample): a present-but-falsy value (`0` for a field whose
default is `7`) makes the round trip succeed but return the default, not
the submitted data — so the claim as stated fails for data satisfying the
field constraints. -/
theorem C1_counterexample :
    Option.map (fun g => alookup g.field_values "no")
        (((mkTestForm [noField]).set_data [("no", PVal.int 0)]).deserialize
          (((mkTestForm [noField]).set_data [("no", PVal.int 0)]).serialize
            [] "K9").2
          (((mkTestForm [noField]).set_data [("no", PVal.int 0)]).serialize
            [] "K9").1.model true).toOption
      = Option.some (Option.some (PVal.int 7)) ∧
      Option.some (PVal.int 7) ≠ alookup [("no", PVal.int 0)] "no" := by
  decide

end Zengine
